import Mathlib

/-!
Verification development for the `newsdedup` repository (news deduplication
for RSS readers).  The definitions below are a shallow embedding of the
Python sources `src/newsdedup.py` and `src/backends.py`; theorems settle the
specification claims against them.
-/

namespace NewsDedup

/-! ## URL canonicalizer (src/newsdedup.py, `normalize_url`, lines 102-126)

The Python function works purely on strings:
  1. `url.split("#")[0]`                        - drop everything from the first `#`;
  2. for each tracking parameter `p`, `re.sub(rf"[?&]{p}=[^&]*", "", url)`
     - delete every occurrence of a separator, the parameter name, `=`, and
       the greedy run of non-`&` characters that follows;
  3. `re.sub(r"[?&]$", "", url)`                - drop a single trailing `?`/`&`;
     in Python `$` also matches just before a single trailing newline.
We embed it on `List Char`.  `re.sub` scans left to right for
non-overlapping matches and resumes after each match, which the fuel-based
scanner `removeParamF` reproduces; fuel `s.length` always suffices because
every step consumes at least one character. -/

/-- Separator characters recognised by the regexes `[?&]...`. -/
def isSep (c : Char) : Bool := c = '?' || c = '&'

/-- The deny-list of tracking parameters, in the order the Python list
`tracking_params` declares them (each `re.sub` is applied in this order). -/
def tracking_params : List (List Char) :=
  [ "utm_source".data, "utm_medium".data, "utm_campaign".data,
    "utm_term".data, "utm_content".data, "fbclid".data, "gclid".data,
    "msclkid".data, "mc_cid".data, "mc_eid".data ]

/-- Embedding of `url.split("#")[0]`: the characters before the first `#`. -/
def splitHashL (s : List Char) : List Char := s.takeWhile (fun c => c ≠ '#')

/-- One left-to-right pass of `re.sub(rf"[?&]{p}=[^&]*", "", s)`, with fuel.
At a match the scanner deletes the separator, `p`, `=` and the greedy run of
non-`&` characters, then resumes at the following character (a `&` or the
end), exactly as `re.sub` does. -/
def removeParamF : Nat → List Char → List Char → List Char
  | 0, _, s => s
  | Nat.succ fuel, p, s =>
    match s with
    | [] => []
    | c :: rest =>
      if isSep c && (p ++ ['=']).isPrefixOf rest then
        removeParamF fuel p ((rest.drop (p.length + 1)).dropWhile (fun d => d ≠ '&'))
      else
        c :: removeParamF fuel p rest

/-- `re.sub(rf"[?&]{p}=[^&]*", "", s)`; fuel `s.length` is always enough. -/
def removeParamL (p s : List Char) : List Char := removeParamF s.length p s

/-- The ten `re.sub` passes of `normalize_url`, in declaration order. -/
def removeParamsL (s : List Char) : List Char :=
  tracking_params.foldl (fun acc p => removeParamL p acc) s

/-- Does `s` contain an occurrence of the pattern `[?&]p=`, i.e. a
separator immediately followed by the parameter name and `=`?  This is
exactly the condition under which `re.sub(rf"[?&]{p}=[^&]*", "", s)` finds
something to delete. -/
def hasMatch (p : List Char) : List Char → Bool
  | [] => false
  | c :: rest => (isSep c && (p ++ ['=']).isPrefixOf rest) || hasMatch p rest

/-- Embedding of `re.sub(r"[?&]$", "", s)`: Python `$` matches at the end of
the string or just before one trailing newline, so the pass deletes a single
`?` or `&` sitting at the end or directly before a final newline. -/
def stripTrailingL (s : List Char) : List Char :=
  match s.reverse with
  | [] => []
  | c :: t =>
    if isSep c then t.reverse
    else if c = '\n' then
      match t with
      | [] => s
      | c2 :: t2 => if isSep c2 then t2.reverse ++ ['\n'] else s
    else s

/-- The canonicalization pipeline on character lists: fragment split, the
ten tracking-parameter passes, then the trailing-separator cleanup. -/
def normalizeL (s : List Char) : List Char :=
  stripTrailingL (removeParamsL (splitHashL s))

/-- Embedding of `normalize_url` (src/newsdedup.py lines 102-126). -/
def normalize_url (u : String) : String :=
  String.mk (normalizeL u.data)

example : normalize_url "https://x/a?utm_source=y&id=1#frag" = "https://x/a&id=1" := by decide
example : normalize_url "https://x/a??" = "https://x/a?" := by decide
example : normalize_url "https://x/a?" = "https://x/a" := by decide
example : normalize_url "https://x/a?id=1&utm_source=y" = "https://x/a?id=1" := by decide

/-! ## Data model (src/backends.py `Article`, src/newsdedup.py `LearnedArticle`) -/

/-- Generic article representation (src/backends.py, class `Article` /
`MinifluxArticle`): id, title, link (may be empty), feed id, feed title,
unread flag and is-updated flag. -/
structure Article where
  id : Nat
  title : String
  link : String
  feed_id : Nat
  feed_title : String
  unread : Bool
  is_updated : Bool
deriving DecidableEq, Repr

/-- Metadata about learned articles (src/newsdedup.py, class `LearnedArticle`). -/
structure LearnedArticle where
  title : String
  url : String
  feed_id : Nat
deriving DecidableEq, Repr

/-- A feed as returned by `rss.get_feeds()` (id and title are all the core uses). -/
structure Feed where
  id : Nat
  title : String
deriving DecidableEq, Repr

/-- A backend mutation issued by `handle_known_news` (`rss.mark_read` /
`rss.mark_starred` calls, in issue order). -/
inductive Action where
  | markRead (article_id : Nat)
  | markStarred (article_id : Nat)
deriving DecidableEq, Repr

/-! ## Similarity scorer (src/newsdedup.py lines 129-159)

`fuzz.token_sort_ratio`, `fuzz.token_set_ratio` and `fuzz.partial_ratio`
come from the external `fuzzywuzzy` library, which is not part of this
repository; we treat them as arbitrary scoring functions, bundled in a
`Fuzz` record, and prove the claims for every choice of them.
`jaccard_similarity` is in the source and is embedded concretely; the only
deviation is that Python computes `int((i/u)*100)` with float division
while we use exact natural division `(i*100)/u` (they agree on every input
evaluated in this file, in particular whenever `i = u`). -/

/-- The three scorers the code imports from `fuzzywuzzy.fuzz` (external
library): `token_sort_ratio`, `token_set_ratio`, `partial_ratio`. -/
structure Fuzz where
  token_sort_fn : String → String → Nat
  token_set_fn : String → String → Nat
  substr_fn : String → String → Nat

/-- Whitespace splitter: accumulates the current word (reversed) and emits it
at every whitespace run, dropping empty words — the behaviour of Python
`str.split()` with no argument. -/
def wordsAux : List Char → List Char → List (List Char)
  | [], acc => if acc = [] then [] else [acc.reverse]
  | c :: rest, acc =>
    if c.isWhitespace then
      if acc = [] then wordsAux rest [] else acc.reverse :: wordsAux rest []
    else wordsAux rest (c :: acc)

/-- Python `s.lower().split()`: case-fold each character, split on
whitespace, drop empties.  (Python lowercases with full Unicode tables;
`Char.toLower` covers ASCII, which is all the evaluated inputs use.) -/
def pyWords (s : String) : List (List Char) :=
  wordsAux (s.data.map Char.toLower) []

/-- Embedding of `jaccard_similarity` (lines 129-140): word sets of the two
lowercased titles, `int(|A ∩ B| / |A ∪ B| * 100)`, and `0` when either set
is empty.  Set cardinalities are computed on deduplicated word lists. -/
def jaccard_similarity (str1 str2 : String) : Nat :=
  let words1 := (pyWords str1).dedup
  let words2 := (pyWords str2).dedup
  if words1 = [] ∨ words2 = [] then 0
  else
    let inter := (words1.filter (fun w => w ∈ words2)).length
    let unionN := (words1 ++ words2.filter (fun w => w ∉ words1)).length
    if unionN > 0 then (inter * 100) / unionN else 0

/-- Embedding of `calculate_similarity` (lines 143-159): dispatch on the
method name; `combined` is the maximum of token-sort, token-set and
jaccard; an unknown method falls back to token-sort. -/
def calculate_similarity (fz : Fuzz) (title1 title2 : String) (method : String) : Nat :=
  if method = "token_sort" then fz.token_sort_fn title1 title2
  else if method = "token_set" then fz.token_set_fn title1 title2
  else if method = "partial" then fz.substr_fn title1 title2
  else if method = "jaccard" then jaccard_similarity title1 title2
  else if method = "combined" then
    max (max (fz.token_sort_fn title1 title2) (fz.token_set_fn title1 title2))
      (jaccard_similarity title1 title2)
  else fz.token_sort_fn title1 title2

example : jaccard_similarity "t" "t" = 100 := by decide
example : jaccard_similarity "Storm hits coast" "storm HITS sea" = 50 := by decide

/-! ## Recency cache (src/newsdedup.py `init_title_queue` / `init_url_queue`,
lines 86-99)

The code stores learned articles in `collections.deque(maxlen=N)`: appending
when the deque holds `N` items silently discards the oldest item.  We embed
the deque as a list plus its `maxlen`; `append` keeps the last `maxlen`
elements of `items ++ [x]`. -/

/-- A `collections.deque(maxlen=maxlen)` of learned articles. -/
structure BQueue where
  maxlen : Nat
  items : List LearnedArticle
deriving Repr, DecidableEq

/-- `deque.append`: append on the right, evicting from the left at capacity. -/
def BQueue.append (q : BQueue) (x : LearnedArticle) : BQueue :=
  { q with items := (q.items ++ [x]).drop ((q.items.length + 1) - q.maxlen) }

/-- Appending a whole list, one element at a time. -/
def BQueue.appendList (q : BQueue) (xs : List LearnedArticle) : BQueue :=
  xs.foldl BQueue.append q

/-- Embedding of `init_title_queue` (lines 86-91): a deque with
`maxlen = max(5000, maxcount * 100)` where `maxcount` is the configured
per-feed learn count. -/
def init_title_queue (maxcount : Nat) : BQueue :=
  { maxlen := max 5000 (maxcount * 100), items := [] }

/-- Embedding of `init_url_queue` (lines 94-99): identical construction; the
queue is passed around but never read or appended afterwards. -/
def init_url_queue (maxcount : Nat) : BQueue :=
  { maxlen := max 5000 (maxcount * 100), items := [] }

/-! ## Configuration values consumed by the core

`monitor_rss` (lines 372-388) extracts these from the TOML dictionary with
defaults `ignore=""`, `nostar=""`, `ratio=80`, `similarity_method="combined"`,
`check_urls=True`, `feeds.internal_only=[]`, `maxcount=50`,
`learning_retry_interval=10`; config-file parsing itself is out of scope.
Note `"".split(",") == [""]` in Python, so the default ignore and no-star
lists are `[""]`, not `[]`.  The `ratio` threshold is called `ratioVal`
here. -/
structure Config where
  ignore_list : List String
  nostar_list : List String
  ratioVal : Nat
  similarity_method : String
  check_urls : Bool
  internal_only_feeds : List Nat
  maxcount : Nat
  learning_retry_interval : Nat

/-! ## Duplicate classifier (src/newsdedup.py lines 252-343 and 415-442) -/

/-- Embedding of `compare_to_queue` (lines 252-290): walk the queue oldest to
newest; skip records of other feeds when the current feed is internal-only;
return the first similarity strictly above the threshold, else 0. -/
def compare_to_queue (fz : Fuzz) (queue : List LearnedArticle) (head : Article)
    (ratioVal : Nat) (similarity_method : String) (internal_only_feeds : List Nat)
    (feed_id : Nat) : Nat :=
  match queue with
  | [] => 0
  | item :: rest =>
    if feed_id ∈ internal_only_feeds ∧ item.feed_id ≠ feed_id then
      compare_to_queue fz rest head ratioVal similarity_method internal_only_feeds feed_id
    else
      let similarity := calculate_similarity fz item.title head.title similarity_method
      if similarity > ratioVal then similarity
      else compare_to_queue fz rest head ratioVal similarity_method internal_only_feeds feed_id

/-- The scan inside `check_url_duplicate`: first record (same internal-only
restriction) whose stored canonical URL equals the article's. -/
def urlScan (normalized_url : String) (internal_only_feeds : List Nat)
    (feed_id : Nat) : List LearnedArticle → Bool
  | [] => false
  | item :: rest =>
    if feed_id ∈ internal_only_feeds ∧ item.feed_id ≠ feed_id then
      urlScan normalized_url internal_only_feeds feed_id rest
    else if normalized_url = item.url then true
    else urlScan normalized_url internal_only_feeds feed_id rest

/-- Embedding of `check_url_duplicate` (lines 293-324): `False` for an empty
link, otherwise scan the queue for the canonicalized link. -/
def check_url_duplicate (url_queue : List LearnedArticle) (head : Article)
    (internal_only_feeds : List Nat) (feed_id : Nat) : Bool :=
  if head.link = "" then false
  else urlScan (normalize_url head.link) internal_only_feeds feed_id url_queue

/-- Embedding of `handle_known_news` (lines 327-343) as the list of backend
calls it issues: feeds on the no-star list get only `mark_read`; all others
get `mark_starred` then `mark_read`; in dry-run mode nothing is issued. -/
def handle_known_news (head : Article) (nostar_list : List String)
    (dry_run : Bool) : List Action :=
  if Nat.repr head.feed_id ∈ nostar_list then
    if dry_run then [] else [Action.markRead head.id]
  else
    if dry_run then [] else [Action.markStarred head.id, Action.markRead head.id]

/-- Outcome of the per-article classification in `monitor_rss`
(lines 415-438): skipped (updated article or ignored feed), duplicate by
URL, duplicate by title, or not a duplicate. -/
inductive Classification where
  | url
  | title
  | notDup
  | skipped
deriving DecidableEq, Repr

/-- The classification decision of `monitor_rss` for one article against the
current queue (lines 415-438): skip updated/ignored articles; otherwise URL
check first (when enabled), then the title scan. -/
def classify (fz : Fuzz) (cfg : Config) (queue : List LearnedArticle)
    (head : Article) : Classification :=
  if head.is_updated = true ∨ Nat.repr head.feed_id ∈ cfg.ignore_list then .skipped
  else if cfg.check_urls = true ∧
      check_url_duplicate queue head cfg.internal_only_feeds head.feed_id = true then .url
  else if 0 < compare_to_queue fz queue head cfg.ratioVal cfg.similarity_method
      cfg.internal_only_feeds head.feed_id then .title
  else .notDup

/-- The learned record `monitor_rss` appends for every processed article
(lines 444-451). -/
def learnedOf (head : Article) : LearnedArticle :=
  { title := head.title
    url := if head.link ≠ "" then normalize_url head.link else ""
    feed_id := head.feed_id }

/-! ## Poll loop (src/newsdedup.py `monitor_rss`, lines 358-462)

The backend is the external feed reader; each poll cycle either yields the
server's article store (from which `get_headlines(since_id=start_id,
view_mode="unread")` filters the unread articles with id above the
checkpoint — Miniflux `after_entry_id` semantics, src/backends.py lines
154-179) or raises (`Except.error`).  The Python local `headlines` is
initialised to `[]` once before the loop (line 390) and is NOT reset on a
fetch exception, so an error cycle re-processes the previous cycle's
batch; the embedding keeps `headlines` in the loop state to preserve
exactly that behaviour. -/

/-- `rss.get_headlines(since_id=start_id, view_mode="unread")` against a
store: unread articles, restricted to `id > since` unless `since == 0`
(Python truthiness of `since_id`).  Modelled from the spec for the remote
side: the backend returns entries with identifier greater than `since_id`. -/
def fetch_unread (store : List Article) (since : Int) : List Article :=
  store.filter (fun a => a.unread && (since == 0 || decide (since < (a.id : Int))))

/-- Loop state of `monitor_rss`: the checkpoint `start_id`, the title queue,
and the `headlines` local variable surviving across cycles. -/
structure MonState where
  start_id : Int
  title_queue : BQueue
  headlines : List Article

/-- Accumulator for the `for head in headlines` loop (lines 411-451). -/
structure CycleAcc where
  start_id : Int
  queue : BQueue
  actions : List Action
  dup : Nat

/-- One iteration of the `for head in headlines` body: raise the checkpoint,
classify against the current queue, act on duplicates, then append the
article's learned record regardless of the outcome. -/
def processHead (fz : Fuzz) (cfg : Config) (dry_run : Bool)
    (acc : CycleAcc) (head : Article) : CycleAcc :=
  let c := classify fz cfg acc.queue.items head
  { start_id := max acc.start_id (head.id : Int)
    queue := acc.queue.append (learnedOf head)
    actions :=
      if c = .url ∨ c = .title then
        acc.actions ++ handle_known_news head cfg.nostar_list dry_run
      else acc.actions
    dup := if c = .url ∨ c = .title then acc.dup + 1 else acc.dup }

/-- Result of one poll cycle. -/
structure CycleOut where
  state : MonState
  actions : List Action
  dup : Nat
  heads : List Article

/-- One iteration of the `while True` poll loop: fetch (or keep the stale
`headlines` on an exception), process every headline, record the actions
issued and the duplicate count. -/
def monitorCycle (fz : Fuzz) (cfg : Config) (dry_run : Bool)
    (fetched : Except Unit (List Article)) (st : MonState) : CycleOut :=
  let headlines :=
    match fetched with
    | .ok store => fetch_unread store st.start_id
    | .error _ => st.headlines
  let r := headlines.foldl (processHead fz cfg dry_run)
    { start_id := st.start_id, queue := st.title_queue, actions := [], dup := 0 }
  { state := { start_id := r.start_id, title_queue := r.queue, headlines := headlines }
    actions := r.actions
    dup := r.dup
    heads := headlines }

/-- Observable outcome of running `monitor_rss` over a finite window of poll
cycles: final state, per-cycle actions and duplicate counts, ids of every
article iterated over, and whether the function returned (it returns only on
the dry-run path, line 456; otherwise it sleeps and loops). -/
structure MonitorResult where
  state : MonState
  cycles : List (List Action × Nat)
  processedIds : List Nat
  returned : Bool

/-- The `while True` loop of `monitor_rss` observed over a finite list of
cycle inputs: in dry-run mode it returns after the first cycle; otherwise it
consumes the whole window without returning. -/
def monitorLoop (fz : Fuzz) (cfg : Config) (dry_run : Bool) :
    List (Except Unit (List Article)) → MonState → MonitorResult
  | [], st => { state := st, cycles := [], processedIds := [], returned := false }
  | f :: rest, st =>
    let c := monitorCycle fz cfg dry_run f st
    if dry_run then
      { state := c.state, cycles := [(c.actions, c.dup)]
        processedIds := c.heads.map Article.id, returned := true }
    else
      let r := monitorLoop fz cfg dry_run rest c.state
      { state := r.state, cycles := (c.actions, c.dup) :: r.cycles
        processedIds := c.heads.map Article.id ++ r.processedIds
        returned := r.returned }

/-- The command-line flags that influence behaviour (`--dry-run`,
`--daemon`); verbosity flags affect only diagnostics. -/
structure Arguments where
  dry_run : Bool
  daemon : Bool

/-- Embedding of `monitor_rss` (lines 358-462): choose the start checkpoint
(saved state if positive, else the live `latest id - unread count`
computation of lines 396-398), then run the poll loop.  `url_queue` is
accepted and never used, as in the source ("unused, kept for
compatibility"). -/
def monitor_rss (fz : Fuzz) (cfg : Config) (args : Arguments)
    (cycles : List (Except Unit (List Article)))
    (title_queue url_queue : BQueue)
    (saved_state latest_id unread_count : Int) : MonitorResult :=
  let start_id := if saved_state > 0 then saved_state else latest_id - unread_count
  monitorLoop fz cfg args.dry_run cycles
    { start_id := start_id, title_queue := title_queue, headlines := [] }

/-! ## Learning warm-up (src/newsdedup.py `learn_last_read`, lines 162-249)

Per feed, the code repeatedly calls
`get_headlines(feed_id=f, view_mode="all_articles", since_id=feed_batch*200,
limit=min(maxcount-learned, 200))` and appends a record for every article
whose unread flag is false, until `maxcount` records were learned from the
feed or a batch comes back empty.  Note that `since_id` is an article-id
threshold (`after_entry_id`), not a page offset.  The `while` loop is
embedded with fuel; `feedFuel` iterations always suffice because `since_id`
grows by 200 per batch and a batch is empty once `since_id` exceeds every
article id (fuel sufficiency is proved below as `learnFeedF_stable`). -/

/-- `rss.get_headlines(feed_id=fid, view_mode="all_articles", since_id=since,
limit=limit)` against a store: the feed's articles of any status with
`id > since` unless `since == 0`, truncated to `limit`. -/
def fetch_feed_all (store : List Article) (fid : Nat) (since : Nat)
    (limit : Nat) : List Article :=
  (store.filter (fun a => a.feed_id == fid && (since == 0 || decide (since < a.id)))).take limit

/-- The learned record built at lines 220-228 (note: tagged with the feed id
of the feed being learned, `feed.id`). -/
def learnRecord (fid : Nat) (a : Article) : LearnedArticle :=
  { title := a.title
    url := if a.link ≠ "" then normalize_url a.link else ""
    feed_id := fid }

/-- The `for article in articles` body (lines 218-230): append a record for
every read (non-unread) article and count it. -/
def learnBatch (fid : Nat) (acc : BQueue × Nat) (articles : List Article) : BQueue × Nat :=
  articles.foldl
    (fun acc a => if a.unread then acc else (acc.1.append (learnRecord fid a), acc.2 + 1))
    acc

/-- The per-feed `while learned_from_feed < maxcount_per_feed` loop
(lines 206-238), with fuel; arguments after the fuel are the batch index
`feed_batch`, the running count `learned_from_feed` and the queue. -/
def learnFeedF (store : List Article) (fid : Nat) (maxcount : Nat) :
    Nat → Nat → Nat → BQueue → BQueue × Nat
  | 0, _, learned, q => (q, learned)
  | fuel + 1, feed_batch, learned, q =>
    if learned < maxcount then
      let limit := min (maxcount - learned) 200
      let articles := fetch_feed_all store fid (feed_batch * 200) limit
      if articles = [] then (q, learned)
      else
        let r := learnBatch fid (q, learned) articles
        learnFeedF store fid maxcount fuel (feed_batch + 1) r.2 r.1
    else (q, learned)

/-- The largest article id present in the store. -/
def maxStoreId (store : List Article) : Nat :=
  store.foldl (fun m a => max m a.id) 0

/-- Enough fuel for the per-feed loop: `since_id` passes `maxStoreId` after
at most `maxStoreId / 200 + 1` batches. -/
def feedFuel (store : List Article) : Nat := maxStoreId store / 200 + 2

/-- The per-feed learning loop, started at batch 0 with zero learned. -/
def learnFeed (store : List Article) (fid : Nat) (maxcount : Nat)
    (q : BQueue) : BQueue × Nat :=
  learnFeedF store fid maxcount (feedFuel store) 0 0 q

/-- Embedding of `learn_last_read` (lines 162-249): skip when the cache is
already populated (unless forced), clear the cache when forced, then learn
every feed in turn.  The URL queue is returned untouched, as in the source. -/
def learn_last_read (store : List Article) (feeds : List Feed) (cfg : Config)
    (title_queue url_queue : BQueue)
    (skip_if_cached force_relearn : Bool) : BQueue × BQueue :=
  if !force_relearn && skip_if_cached && !title_queue.items.isEmpty then
    (title_queue, url_queue)
  else
    let tq0 :=
      if force_relearn && !title_queue.items.isEmpty then
        { title_queue with items := [] }
      else title_queue
    let tq := feeds.foldl (fun q f => (learnFeed store f.id cfg.maxcount q).1) tq0
    (tq, url_queue)

/-! ## Progress tracking and the `run` driver (lines 55-74 and 465-509)

`load_state` yields the persisted checkpoint, `0` when the file is missing
or corrupt; `save_state` writes it.  The persisted value is modelled as
`Option Int`.  In `run`, `save_state(last_id)` executes only after
`monitor_rss` returns — which happens only on the dry-run path; in daemon
mode the poll loop never returns, so within any observation window no save
occurs. -/

/-- `load_state`: the persisted checkpoint, or `0` if absent/corrupt. -/
def load_state (persisted : Option Int) : Int := persisted.getD 0

/-- Outcome of one iteration of `run`'s loop body (lines 477-500). -/
structure RunOut where
  persisted : Option Int
  monitor : MonitorResult

/-- Embedding of the first iteration of `run`'s `while True` body
(lines 477-500): load the checkpoint, warm up (`force_relearn` is
`1 % retry_interval == 0`, i.e. only when the retry interval is 1), run the
poll loop, and persist the returned checkpoint if — and only if — the poll
loop returned. -/
def runOnce (fz : Fuzz) (cfg : Config) (args : Arguments)
    (store : List Article) (feeds : List Feed)
    (cycles : List (Except Unit (List Article))) (persisted : Option Int)
    (latest_id unread_count : Int) (title_queue url_queue : BQueue) : RunOut :=
  let last_id := load_state persisted
  let force_relearn := 1 % cfg.learning_retry_interval == 0
  let qs := learn_last_read store feeds cfg title_queue url_queue true force_relearn
  let r := monitor_rss fz cfg args cycles qs.1 qs.2 last_id latest_id unread_count
  let persisted2 := if r.returned then some r.state.start_id else persisted
  { persisted := persisted2, monitor := r }

/-! ## Concrete fixtures used by witnesses and counterexamples -/

/-- Fuzzy scorers that return 0 on every pair (the external scorers are
irrelevant to the facts evaluated with this fixture). -/
def fz0 : Fuzz := ⟨fun _ _ => 0, fun _ _ => 0, fun _ _ => 0⟩

/-- The configuration produced by an empty `[newsdedup]` TOML section: all
defaults (`ignore=""` and `nostar=""` split to `[""]`, threshold 80, method
`combined`, URL checking on, no internal-only feeds, maxcount 50, retry
interval 10). -/
def cfgD : Config := ⟨[""], [""], 80, "combined", true, [], 50, 10⟩

/-- An unread article with id 10 and an empty link. -/
def art10 : Article := ⟨10, "t", "", 1, "f", true, false⟩

/-- An unread article with id 500 and an empty link. -/
def art500 : Article := ⟨500, "t", "", 1, "f", true, false⟩

/-- An unread article with id 501 and an empty link. -/
def art501 : Article := ⟨501, "t", "", 1, "f", true, false⟩

/-- A backend store for feed 1 with exactly three read articles whose ids
(300, 301, 302) all exceed the fetch batch size 200. -/
def storeHigh : List Article :=
  [⟨300, "x", "", 1, "f", false, false⟩, ⟨301, "y", "", 1, "f", false, false⟩,
   ⟨302, "z", "", 1, "f", false, false⟩]

/-- A backend store for feed 7 with exactly three read articles whose ids
(1, 2, 3) are at most the fetch batch size 200. -/
def storeLow : List Article :=
  [⟨1, "x", "", 7, "f", false, false⟩, ⟨2, "y", "", 7, "f", false, false⟩,
   ⟨3, "z", "", 7, "f", false, false⟩]

/-! ## Helper lemmas -/

/-- In dry-run mode `handle_known_news` issues no backend call. -/
theorem handle_known_news_dry (head : Article) (nostar : List String) :
    handle_known_news head nostar true = [] := by
  unfold handle_known_news
  split <;> rfl

/-- In dry-run mode processing an article adds no action. -/
theorem processHead_dry_actions (fz : Fuzz) (cfg : Config) (acc : CycleAcc) (head : Article) :
    (processHead fz cfg true acc head).actions = acc.actions := by
  simp [processHead, handle_known_news_dry]

/-- In dry-run mode the whole `for head in headlines` loop adds no action. -/
theorem foldl_processHead_dry_actions (fz : Fuzz) (cfg : Config) :
    ∀ (heads : List Article) (acc : CycleAcc),
      (heads.foldl (processHead fz cfg true) acc).actions = acc.actions := by
  intro heads
  induction heads with
  | nil => intro acc; rfl
  | cons h t ih => intro acc; rw [List.foldl_cons, ih, processHead_dry_actions]

/-- A dry-run poll cycle issues no backend action. -/
theorem monitorCycle_dry_actions (fz : Fuzz) (cfg : Config)
    (f : Except Unit (List Article)) (st : MonState) :
    (monitorCycle fz cfg true f st).actions = [] := by
  exact foldl_processHead_dry_actions fz cfg _ _

/-- The checkpoint, queue and duplicate count computed by `processHead` do
not depend on the dry-run flag (only the actions do). -/
theorem processHead_dry_agnostic (fz : Fuzz) (cfg : Config) (d d' : Bool)
    (acc acc' : CycleAcc) (head : Article)
    (h1 : acc.start_id = acc'.start_id) (h2 : acc.queue = acc'.queue)
    (h3 : acc.dup = acc'.dup) :
    (processHead fz cfg d acc head).start_id = (processHead fz cfg d' acc' head).start_id ∧
    (processHead fz cfg d acc head).queue = (processHead fz cfg d' acc' head).queue ∧
    (processHead fz cfg d acc head).dup = (processHead fz cfg d' acc' head).dup := by
  simp [processHead, h1, h2, h3]

/-- The headline fold's checkpoint, queue and duplicate count do not depend
on the dry-run flag. -/
theorem foldl_processHead_dry_agnostic (fz : Fuzz) (cfg : Config) (d d' : Bool) :
    ∀ (heads : List Article) (acc acc' : CycleAcc),
      acc.start_id = acc'.start_id → acc.queue = acc'.queue → acc.dup = acc'.dup →
      (heads.foldl (processHead fz cfg d) acc).start_id
          = (heads.foldl (processHead fz cfg d') acc').start_id ∧
      (heads.foldl (processHead fz cfg d) acc).queue
          = (heads.foldl (processHead fz cfg d') acc').queue ∧
      (heads.foldl (processHead fz cfg d) acc).dup
          = (heads.foldl (processHead fz cfg d') acc').dup := by
  intro heads
  induction heads with
  | nil => intro acc acc' h1 h2 h3; exact ⟨h1, h2, h3⟩
  | cons h t ih =>
    intro acc acc' h1 h2 h3
    have step := processHead_dry_agnostic fz cfg d d' acc acc' h h1 h2 h3
    exact ih _ _ step.1 step.2.1 step.2.2

/-- Classification outcome of one poll cycle (new state, duplicate count and
the processed batch) does not depend on the dry-run flag. -/
theorem monitorCycle_dry_agnostic (fz : Fuzz) (cfg : Config) (d d' : Bool)
    (f : Except Unit (List Article)) (st : MonState) :
    (monitorCycle fz cfg d f st).state.start_id = (monitorCycle fz cfg d' f st).state.start_id ∧
    (monitorCycle fz cfg d f st).state.title_queue
        = (monitorCycle fz cfg d' f st).state.title_queue ∧
    (monitorCycle fz cfg d f st).dup = (monitorCycle fz cfg d' f st).dup ∧
    (monitorCycle fz cfg d f st).heads = (monitorCycle fz cfg d' f st).heads := by
  unfold monitorCycle
  have h := foldl_processHead_dry_agnostic fz cfg d d'
    (match f with
      | .ok store => fetch_unread store st.start_id
      | .error _ => st.headlines)
    { start_id := st.start_id, queue := st.title_queue, actions := [], dup := 0 }
    { start_id := st.start_id, queue := st.title_queue, actions := [], dup := 0 }
    rfl rfl rfl
  exact ⟨h.1, h.2.1, h.2.2, rfl⟩

/-- The first component of `learn_last_read` does not depend on the URL
queue argument. -/
theorem learn_last_read_fst_irrel (store : List Article) (feeds : List Feed)
    (cfg : Config) (tq uq uq' : BQueue) (skip force : Bool) :
    (learn_last_read store feeds cfg tq uq skip force).1
        = (learn_last_read store feeds cfg tq uq' skip force).1 := by
  unfold learn_last_read
  split <;> rfl

/-- The second component of `learn_last_read` is the URL queue, unchanged. -/
theorem learn_last_read_snd (store : List Article) (feeds : List Feed)
    (cfg : Config) (tq uq : BQueue) (skip force : Bool) :
    (learn_last_read store feeds cfg tq uq skip force).2 = uq := by
  unfold learn_last_read
  split <;> rfl

/-- `monitor_rss` ignores its URL queue argument. -/
theorem monitor_rss_url_queue_irrel (fz : Fuzz) (cfg : Config) (args : Arguments)
    (cycles : List (Except Unit (List Article))) (tq uq uq' : BQueue)
    (s l u : Int) :
    monitor_rss fz cfg args cycles tq uq s l u = monitor_rss fz cfg args cycles tq uq' s l u :=
  rfl

/-! ## Claim theorems -/

/-- C3 counterexample: canonicalizing
`"https://x/a?utm_source=y&id=1#frag"` does NOT yield `"https://x/a?id=1"`:
the deleted `?utm_source=y` takes its leading `?` with it and the following
parameter keeps its `&` separator. -/
theorem c3_counterexample :
    normalize_url "https://x/a?utm_source=y&id=1#frag" ≠ "https://x/a?id=1" := by
  decide

/-- C3 (amended): canonicalization of
`"https://x/a?utm_source=y&id=1#frag"` removes the fragment and the
deny-listed tracking parameter, but the surviving parameter keeps the
separator it had in the input, so the result is `"https://x/a&id=1"`. -/
theorem c3_amended_separator :
    normalize_url "https://x/a?utm_source=y&id=1#frag" = "https://x/a&id=1" := by
  decide

/-- C5: for every pair of titles and every behaviour of the external fuzzy
scorers, the `combined` method's score is at least each of the
`token_sort`, `token_set` and `jaccard` scores on the same pair, because
`combined` is defined as their maximum. -/
theorem c5_combined_dominates (fz : Fuzz) (a b : String) :
    calculate_similarity fz a b "token_sort" ≤ calculate_similarity fz a b "combined" ∧
    calculate_similarity fz a b "token_set" ≤ calculate_similarity fz a b "combined" ∧
    calculate_similarity fz a b "jaccard" ≤ calculate_similarity fz a b "combined" := by
  refine ⟨?_, ?_, ?_⟩
  · show fz.token_sort_fn a b
        ≤ max (max (fz.token_sort_fn a b) (fz.token_set_fn a b)) (jaccard_similarity a b)
    exact le_trans (le_max_left _ _) (le_max_left _ _)
  · show fz.token_set_fn a b
        ≤ max (max (fz.token_sort_fn a b) (fz.token_set_fn a b)) (jaccard_similarity a b)
    exact le_trans (le_max_right _ _) (le_max_left _ _)
  · show jaccard_similarity a b
        ≤ max (max (fz.token_sort_fn a b) (fz.token_set_fn a b)) (jaccard_similarity a b)
    exact le_max_right _ _

/-- C9: in single-shot evaluate-only (dry-run) mode the poll loop issues no
`mark_read`/`mark_starred` call whatever the input batches contain; it runs
exactly one polling pass and returns; and classification still runs — the
resulting checkpoint, learned queue, duplicate count and processed batch of
a cycle are identical to those of a live (non-dry-run) cycle. -/
theorem c9_dry_run_suppresses_marks :
    (∀ (fz : Fuzz) (cfg : Config) (d : Bool) (cycles : List (Except Unit (List Article)))
        (tq uq : BQueue) (s l u : Int),
      ((monitor_rss fz cfg ⟨true, d⟩ cycles tq uq s l u).cycles.map Prod.fst).flatten = []) ∧
    (∀ (fz : Fuzz) (cfg : Config) (d : Bool) (c : Except Unit (List Article))
        (rest : List (Except Unit (List Article))) (tq uq : BQueue) (s l u : Int),
      (monitor_rss fz cfg ⟨true, d⟩ (c :: rest) tq uq s l u).cycles.length = 1 ∧
      (monitor_rss fz cfg ⟨true, d⟩ (c :: rest) tq uq s l u).returned = true) ∧
    (∀ (fz : Fuzz) (cfg : Config) (d d' : Bool) (f : Except Unit (List Article)) (st : MonState),
      (monitorCycle fz cfg d f st).state.start_id
          = (monitorCycle fz cfg d' f st).state.start_id ∧
      (monitorCycle fz cfg d f st).state.title_queue
          = (monitorCycle fz cfg d' f st).state.title_queue ∧
      (monitorCycle fz cfg d f st).dup = (monitorCycle fz cfg d' f st).dup ∧
      (monitorCycle fz cfg d f st).heads = (monitorCycle fz cfg d' f st).heads) := by
  refine ⟨?_, ?_, ?_⟩
  · intro fz cfg d cycles tq uq s l u
    cases cycles with
    | nil => rfl
    | cons c rest =>
      show ((monitorLoop fz cfg true (c :: rest) _).cycles.map Prod.fst).flatten = []
      simp [monitorLoop, monitorCycle_dry_actions]
  · intro fz cfg d c rest tq uq s l u
    exact ⟨rfl, rfl⟩
  · intro fz cfg d d' f st
    exact monitorCycle_dry_agnostic fz cfg d d' f st

/-- C10: the URL-duplicate check and the title-similarity check both read
the title queue: `learn_last_read` returns the URL queue exactly as given
(it appends only to the title queue), and `monitor_rss` — whose URL check
is `check_url_duplicate title_queue ...` — together with the whole `run`
body produce results independent of the URL queue passed in, so the
separately constructed URL queue is never read or appended after
construction. -/
theorem c10_url_queue_inert :
    (∀ (store : List Article) (feeds : List Feed) (cfg : Config) (tq uq : BQueue)
        (skip force : Bool),
      (learn_last_read store feeds cfg tq uq skip force).2 = uq) ∧
    (∀ (fz : Fuzz) (cfg : Config) (args : Arguments)
        (cycles : List (Except Unit (List Article))) (tq uq uq' : BQueue) (s l u : Int),
      monitor_rss fz cfg args cycles tq uq s l u
          = monitor_rss fz cfg args cycles tq uq' s l u) ∧
    (∀ (fz : Fuzz) (cfg : Config) (args : Arguments) (store : List Article)
        (feeds : List Feed) (cycles : List (Except Unit (List Article)))
        (p : Option Int) (l u : Int) (tq uq uq' : BQueue),
      runOnce fz cfg args store feeds cycles p l u tq uq
          = runOnce fz cfg args store feeds cycles p l u tq uq') := by
  refine ⟨?_, ?_, ?_⟩
  · intro store feeds cfg tq uq skip force
    exact learn_last_read_snd store feeds cfg tq uq skip force
  · intro fz cfg args cycles tq uq uq' s l u
    rfl
  · intro fz cfg args store feeds cycles p l u tq uq uq'
    show RunOut.mk _ _ = RunOut.mk _ _
    rw [learn_last_read_fst_irrel store feeds cfg tq uq uq',
      learn_last_read_snd store feeds cfg tq uq, learn_last_read_snd store feeds cfg tq uq',
      monitor_rss_url_queue_irrel fz cfg args cycles _ uq uq']

/-- If some record in the queue passes the internal-only restriction and has
the given canonical URL, the URL scan reports a duplicate. -/
theorem urlScan_true_of_mem (normalized : String) (internal_only : List Nat)
    (feed_id : Nat) :
    ∀ (queue : List LearnedArticle) (item : LearnedArticle), item ∈ queue →
      (feed_id ∈ internal_only → item.feed_id = feed_id) →
      item.url = normalized →
      urlScan normalized internal_only feed_id queue = true := by
  intro queue
  induction queue with
  | nil => intro item h; exact absurd h (List.not_mem_nil item)
  | cons x rest ih =>
    intro item hmem hint hurl
    rcases List.mem_cons.mp hmem with hx | hrest
    · subst hx
      unfold urlScan
      rw [if_neg, if_pos hurl.symm]
      intro hc
      exact hc.2 (hint hc.1)
    · unfold urlScan
      split
      · exact ih item hrest hint hurl
      · split
        · rfl
        · exact ih item hrest hint hurl

/-- C6: for an article with a non-empty link that is not skipped (not
updated, feed not ignored), when URL checking is enabled and the cache
holds a record with the same canonical URL (a record of the same feed if
the feed is internal-only), classification is duplicate-by-URL — for every
behaviour of the title scorers, every threshold and every similarity
method, i.e. regardless of title similarity; the title scan is reached only
when no URL match exists. -/
theorem c6_url_match_wins (fz : Fuzz) (cfg : Config) (queue : List LearnedArticle)
    (head : Article) (item : LearnedArticle)
    (hurlchk : cfg.check_urls = true)
    (hlink : head.link ≠ "")
    (hupd : head.is_updated = false)
    (hign : Nat.repr head.feed_id ∉ cfg.ignore_list)
    (hmem : item ∈ queue)
    (hint : head.feed_id ∈ cfg.internal_only_feeds → item.feed_id = head.feed_id)
    (hmatch : item.url = normalize_url head.link) :
    classify fz cfg queue head = Classification.url := by
  have hdup : check_url_duplicate queue head cfg.internal_only_feeds head.feed_id = true := by
    unfold check_url_duplicate
    rw [if_neg hlink]
    exact urlScan_true_of_mem (normalize_url head.link) cfg.internal_only_feeds head.feed_id
      queue item hmem hint hmatch
  unfold classify
  rw [if_neg, if_pos ⟨hurlchk, hdup⟩]
  rw [hupd]
  simp [hign]

/-- Witness for C6 at a concrete input: the cached record
`{"older", "https://news/x", 2}` and a new article linking
`"https://news/x?utm_source=a"` (which canonicalizes to the cached URL) is
classified duplicate-by-URL even with all-zero fuzzy scorers. -/
theorem c6_url_match_wins_witness :
    cfgD.check_urls = true ∧
    (Article.mk 10 "totally different title" "https://news/x?utm_source=a"
        1 "feed" true false).link ≠ "" ∧
    LearnedArticle.mk "older" "https://news/x" 2
        ∈ [LearnedArticle.mk "older" "https://news/x" 2] ∧
    (LearnedArticle.mk "older" "https://news/x" 2).url
        = normalize_url "https://news/x?utm_source=a" ∧
    classify fz0 cfgD [LearnedArticle.mk "older" "https://news/x" 2]
        (Article.mk 10 "totally different title" "https://news/x?utm_source=a"
          1 "feed" true false)
      = Classification.url := by
  refine ⟨by decide, by decide, by decide, by decide, ?_⟩
  exact c6_url_match_wins fz0 cfgD
    [LearnedArticle.mk "older" "https://news/x" 2]
    (Article.mk 10 "totally different title" "https://news/x?utm_source=a" 1 "feed" true false)
    (LearnedArticle.mk "older" "https://news/x" 2)
    (by decide) (by decide) (by decide) (by decide) (by decide)
    (fun h => absurd h (by decide)) (by decide)

/-- `BQueue.append` preserves `maxlen`. -/
theorem BQueue.append_maxlen (q : BQueue) (x : LearnedArticle) :
    (q.append x).maxlen = q.maxlen := rfl

/-- Characterization of repeated deque appends: starting from a queue whose
length respects its capacity, appending `rs` leaves exactly the last
`maxlen` elements of `items ++ rs` (oldest evicted first). -/
theorem BQueue.appendList_items :
    ∀ (rs : List LearnedArticle) (q : BQueue), q.items.length ≤ q.maxlen →
      (q.appendList rs).items
        = (q.items ++ rs).drop ((q.items.length + rs.length) - q.maxlen) := by
  intro rs
  induction rs with
  | nil =>
    intro q hq
    simp only [List.append_nil, List.length_nil]
    have h0 : (q.items.length + 0) - q.maxlen = 0 := by omega
    rw [h0, List.drop_zero]
    rfl
  | cons x rs ih =>
    intro q hq
    have hitems : (q.append x).items
        = (q.items ++ [x]).drop ((q.items.length + 1) - q.maxlen) := rfl
    have hmaxlen : (q.append x).maxlen = q.maxlen := rfl
    have hlen1 : (q.append x).items.length
        = (q.items.length + 1) - ((q.items.length + 1) - q.maxlen) := by
      rw [hitems, List.length_drop, List.length_append, List.length_cons, List.length_nil]
    have hstep : (q.append x).items.length ≤ (q.append x).maxlen := by
      rw [hlen1, hmaxlen]; omega
    have h2 := ih (q.append x) hstep
    have happ : BQueue.appendList q (x :: rs) = BQueue.appendList (q.append x) rs := rfl
    rw [happ, h2, hlen1, hitems, hmaxlen]
    rw [← List.drop_append_of_le_length
      (show (q.items.length + 1) - q.maxlen ≤ (q.items ++ [x]).length by
        rw [List.length_append, List.length_cons, List.length_nil]; omega)]
    rw [List.drop_drop]
    have hassoc : q.items ++ [x] ++ rs = q.items ++ x :: rs := by simp
    rw [hassoc]
    congr 1
    simp only [List.length_cons]
    omega

/-- The deque never grows beyond its capacity. -/
theorem BQueue.appendList_length_le :
    ∀ (rs : List LearnedArticle) (q : BQueue), q.items.length ≤ q.maxlen →
      (q.appendList rs).items.length ≤ q.maxlen := by
  intro rs q hq
  rw [BQueue.appendList_items rs q hq]
  simp only [List.length_drop, List.length_append]
  omega

/-- C7: the recency cache built by `init_title_queue` never exceeds its
capacity under any sequence of appends; and appending capacity + 1 pairwise
relevant records (a first record `r` followed by `rest` of length exactly
the capacity, with `r` not among `rest`) leaves exactly `rest`: the first
appended record has been evicted (strict FIFO, the operation is total — no
error), the newest record is present. -/
theorem c7_cache_fifo_bound (mc : Nat) (r : LearnedArticle) (rest : List LearnedArticle)
    (hlen : rest.length = (init_title_queue mc).maxlen)
    (hr : r ∉ rest) :
    (∀ rs : List LearnedArticle,
      ((init_title_queue mc).appendList rs).items.length ≤ (init_title_queue mc).maxlen) ∧
    ((init_title_queue mc).appendList (r :: rest)).items = rest ∧
    r ∉ ((init_title_queue mc).appendList (r :: rest)).items ∧
    (∀ x : LearnedArticle, (r :: rest).getLast? = some x →
      x ∈ ((init_title_queue mc).appendList (r :: rest)).items) := by
  have hempty : (init_title_queue mc).items.length ≤ (init_title_queue mc).maxlen := by
    simp [init_title_queue]
  have hitems : ((init_title_queue mc).appendList (r :: rest)).items = rest := by
    rw [BQueue.appendList_items (r :: rest) _ hempty]
    have : (init_title_queue mc).items = [] := rfl
    rw [this]
    simp only [List.nil_append, List.length_nil, List.length_cons, hlen]
    have hd : (0 + (rest.length + 1)) - rest.length = 1 := by omega
    rw [hlen] at hd
    rw [hd, List.drop_one, List.tail_cons]
  refine ⟨fun rs => BQueue.appendList_length_le rs _ hempty, hitems, ?_, ?_⟩
  · rw [hitems]; exact hr
  · intro x hx
    rw [hitems]
    have hne : rest ≠ [] := by
      intro h
      rw [h] at hlen
      simp [init_title_queue] at hlen
      omega
    obtain ⟨y, t, rfl⟩ := List.exists_cons_of_ne_nil hne
    rw [List.getLast?_cons_cons] at hx
    exact List.mem_of_mem_getLast? hx

/-- Witness for C7: capacity 5000 (maxcount 0), the record `{"", "", 0}`
followed by 5000 records with distinct positive feed ids. -/
theorem c7_cache_fifo_bound_witness :
    ((List.range 5000).map (fun i => LearnedArticle.mk "" "" (i + 1))).length
        = (init_title_queue 0).maxlen ∧
    LearnedArticle.mk "" "" 0 ∉ (List.range 5000).map (fun i => LearnedArticle.mk "" "" (i + 1)) ∧
    ((init_title_queue 0).appendList
        (LearnedArticle.mk "" "" 0 :: (List.range 5000).map (fun i => LearnedArticle.mk "" "" (i + 1)))).items
      = (List.range 5000).map (fun i => LearnedArticle.mk "" "" (i + 1)) := by
  have h1 : ((List.range 5000).map (fun i => LearnedArticle.mk "" "" (i + 1))).length
      = (init_title_queue 0).maxlen := by
    simp [init_title_queue]
  have h2 : LearnedArticle.mk "" "" 0
      ∉ (List.range 5000).map (fun i => LearnedArticle.mk "" "" (i + 1)) := by
    intro h
    rcases List.mem_map.mp h with ⟨i, _, hi⟩
    have := congrArg LearnedArticle.feed_id hi
    simp at this
  exact ⟨h1, h2, (c7_cache_fifo_bound 0 _ _ h1 h2).2.1⟩

/-- Folding `processHead` never decreases the checkpoint. -/
theorem foldl_processHead_start_le (fz : Fuzz) (cfg : Config) (d : Bool) :
    ∀ (heads : List Article) (acc : CycleAcc),
      acc.start_id ≤ (heads.foldl (processHead fz cfg d) acc).start_id := by
  intro heads
  induction heads with
  | nil => intro acc; exact le_refl _
  | cons h t ih =>
    intro acc
    refine le_trans ?_ (ih (processHead fz cfg d acc h))
    exact le_max_left _ _

/-- Articles returned by the unread fetch have ids above a non-zero `since`. -/
theorem fetch_unread_gt (store : List Article) (s : Int) (a : Article)
    (ha : a ∈ fetch_unread store s) (hs : s ≠ 0) : s < (a.id : Int) := by
  unfold fetch_unread at ha
  have hc := (List.mem_filter.mp ha).2
  rcases Bool.and_eq_true_iff.mp hc with ⟨_, hor⟩
  rcases Bool.or_eq_true_iff.mp hor with h0 | hlt
  · exact absurd (eq_of_beq h0) hs
  · exact of_decide_eq_true hlt

/-- One poll cycle preserves the lower bound `s0` on the checkpoint, on the
ids held in the stale `headlines` buffer, and on every id it iterates over. -/
theorem monitorCycle_id_bound (fz : Fuzz) (cfg : Config) (d : Bool) (s0 : Int)
    (hs0 : 0 < s0) (f : Except Unit (List Article)) (st : MonState)
    (h1 : s0 ≤ st.start_id) (h2 : ∀ a ∈ st.headlines, s0 < (a.id : Int)) :
    s0 ≤ (monitorCycle fz cfg d f st).state.start_id ∧
    (∀ a ∈ (monitorCycle fz cfg d f st).state.headlines, s0 < (a.id : Int)) ∧
    (∀ a ∈ (monitorCycle fz cfg d f st).heads, s0 < (a.id : Int)) := by
  have hheads : ∀ a ∈ (monitorCycle fz cfg d f st).heads, s0 < (a.id : Int) := by
    cases f with
    | ok store =>
      intro a ha
      have hh : (monitorCycle fz cfg d (Except.ok store) st).heads
          = fetch_unread store st.start_id := rfl
      rw [hh] at ha
      have hne : st.start_id ≠ 0 := by omega
      have := fetch_unread_gt store st.start_id a ha hne
      omega
    | error e =>
      intro a ha
      have hh : (monitorCycle fz cfg d (Except.error e) st).heads = st.headlines := rfl
      rw [hh] at ha
      exact h2 a ha
  have hsame : (monitorCycle fz cfg d f st).state.headlines
      = (monitorCycle fz cfg d f st).heads := rfl
  refine ⟨?_, hsame ▸ hheads, hheads⟩
  exact le_trans h1 (foldl_processHead_start_le fz cfg d _ _)

/-- Over any window of poll cycles, every id the loop iterates over stays
above the positive lower bound `s0` of the starting checkpoint. -/
theorem monitorLoop_id_bound (fz : Fuzz) (cfg : Config) (d : Bool) (s0 : Int)
    (hs0 : 0 < s0) :
    ∀ (cycles : List (Except Unit (List Article))) (st : MonState),
      s0 ≤ st.start_id → (∀ a ∈ st.headlines, s0 < (a.id : Int)) →
      (∀ i ∈ (monitorLoop fz cfg d cycles st).processedIds, s0 < (i : Int)) := by
  intro cycles
  induction cycles with
  | nil => intro st _ _ i hi; exact absurd hi (List.not_mem_nil i)
  | cons f rest ih =>
    intro st hst hhl i hi
    have hc := monitorCycle_id_bound fz cfg d s0 hs0 f st hst hhl
    by_cases hd : d = true
    · subst hd
      have : (monitorLoop fz cfg true (f :: rest) st).processedIds
          = (monitorCycle fz cfg true f st).heads.map Article.id := rfl
      rw [this] at hi
      rcases List.mem_map.mp hi with ⟨a, ha, rfl⟩
      exact hc.2.2 a ha
    · have hdf : d = false := by
        cases d
        · rfl
        · exact absurd rfl hd
      subst hdf
      have : (monitorLoop fz cfg false (f :: rest) st).processedIds
          = (monitorCycle fz cfg false f st).heads.map Article.id
            ++ (monitorLoop fz cfg false rest (monitorCycle fz cfg false f st).state).processedIds
          := rfl
      rw [this] at hi
      rcases List.mem_append.mp hi with hi1 | hi2
      · rcases List.mem_map.mp hi1 with ⟨a, ha, rfl⟩
        exact hc.2.2 a ha
      · exact ih (monitorCycle fz cfg false f st).state hc.1 hc.2.1 i hi2

/-- Resuming `monitor_rss` from a positive saved checkpoint `s` only ever
iterates over articles whose id is strictly above `s`. -/
theorem monitor_rss_resume (fz : Fuzz) (cfg : Config) (args : Arguments)
    (cycles : List (Except Unit (List Article))) (tq uq : BQueue)
    (latest unread : Int) (s : Int) (hs : 0 < s) :
    ∀ i ∈ (monitor_rss fz cfg args cycles tq uq s latest unread).processedIds,
      s < (i : Int) := by
  unfold monitor_rss
  rw [if_pos hs]
  exact monitorLoop_id_bound fz cfg args.dry_run s hs cycles _ (le_refl s)
    (fun a ha => absurd ha (List.not_mem_nil a))

/-- A non-empty window in dry-run mode makes the loop return. -/
theorem monitorLoop_dry_returns (fz : Fuzz) (cfg : Config)
    (f : Except Unit (List Article)) (rest : List (Except Unit (List Article)))
    (st : MonState) :
    (monitorLoop fz cfg true (f :: rest) st).returned = true := rfl

/-- `runOnce` persists the loop's final checkpoint exactly when the loop
returned, and otherwise leaves the stored value untouched. -/
theorem runOnce_persisted (fz : Fuzz) (cfg : Config) (args : Arguments)
    (store : List Article) (feeds : List Feed)
    (cycles : List (Except Unit (List Article))) (p : Option Int)
    (latest unread : Int) (tq uq : BQueue) :
    (runOnce fz cfg args store feeds cycles p latest unread tq uq).persisted
      = if (runOnce fz cfg args store feeds cycles p latest unread tq uq).monitor.returned
        then some ((runOnce fz cfg args store feeds cycles p latest unread
          tq uq).monitor.state.start_id)
        else p := rfl

/-- C1 counterexample: in continuous (daemon) mode a poll cycle completes —
the checkpoint advances to 500 (article 500 was evaluated) — yet nothing is
persisted: the state file is written only after `monitor_rss` returns,
which the daemon loop never does. -/
theorem c1_counterexample :
    (runOnce fz0 cfgD ⟨false, true⟩ [] [] [Except.ok [art500]] none 500 1
      (init_title_queue 50) (init_url_queue 50)).monitor.cycles.length = 1 ∧
    (runOnce fz0 cfgD ⟨false, true⟩ [] [] [Except.ok [art500]] none 500 1
      (init_title_queue 50) (init_url_queue 50)).monitor.state.start_id = 500 ∧
    (runOnce fz0 cfgD ⟨false, true⟩ [] [] [Except.ok [art500]] none 500 1
      (init_title_queue 50) (init_url_queue 50)).persisted = none := by
  refine ⟨rfl, by decide, rfl⟩

/-- C1 (amended): the checkpoint is persisted only when the polling
function returns — i.e. after the single dry-run pass, not after every
daemon-mode cycle — and on restart a persisted checkpoint of 500 is loaded
and no article with id ≤ 500 is ever re-evaluated (every id iterated over
is strictly greater than 500). -/
theorem c1_amended_checkpoint (fz : Fuzz) (cfg : Config) (args : Arguments)
    (store : List Article) (feeds : List Feed)
    (cycles : List (Except Unit (List Article)))
    (latest unread : Int) (tq uq : BQueue) :
    (∀ i ∈ (runOnce fz cfg args store feeds cycles (some 500) latest unread
        tq uq).monitor.processedIds, (500 : Int) < (i : Int)) ∧
    (args.dry_run = true →
      (runOnce fz cfg args store feeds cycles (some 500) latest unread tq uq).persisted
        = some ((runOnce fz cfg args store feeds cycles (some 500) latest unread
            tq uq).monitor.state.start_id)) := by
  constructor
  · have hmon : (runOnce fz cfg args store feeds cycles (some 500) latest unread
        tq uq).monitor
        = monitor_rss fz cfg args cycles
            (learn_last_read store feeds cfg tq uq true
              (1 % cfg.learning_retry_interval == 0)).1
            (learn_last_read store feeds cfg tq uq true
              (1 % cfg.learning_retry_interval == 0)).2
            (load_state (some 500)) latest unread := rfl
    rw [hmon]
    exact monitor_rss_resume fz cfg args cycles _ _ latest unread 500 (by norm_num)
  · intro hdry
    rw [runOnce_persisted]
    obtain ⟨dr, dm⟩ := args
    cases hdry
    cases cycles with
    | nil =>
      have hret : (runOnce fz cfg ⟨true, dm⟩ store feeds [] (some 500) latest unread
          tq uq).monitor.returned = false := rfl
      rw [hret]
      have hstart : (runOnce fz cfg ⟨true, dm⟩ store feeds [] (some 500) latest unread
          tq uq).monitor.state.start_id = 500 := rfl
      rw [hstart]
      rfl
    | cons f rest =>
      have hret : (runOnce fz cfg ⟨true, dm⟩ store feeds (f :: rest) (some 500) latest unread
          tq uq).monitor.returned = true := rfl
      rw [hret]
      rfl

/-- Witness for C1 (amended) at a concrete input: dry-run restart from a
persisted checkpoint of 500 against a store holding unread article 501;
article 501 is evaluated (and 501 > 500), and the final checkpoint is
persisted. -/
theorem c1_amended_checkpoint_witness :
    501 ∈ (runOnce fz0 cfgD ⟨true, false⟩ [] [] [Except.ok [art501]] (some 500) 0 0
        (init_title_queue 50) (init_url_queue 50)).monitor.processedIds ∧
    (500 : Int) < ((501 : Nat) : Int) ∧
    (runOnce fz0 cfgD ⟨true, false⟩ [] [] [Except.ok [art501]] (some 500) 0 0
        (init_title_queue 50) (init_url_queue 50)).persisted
      = some ((runOnce fz0 cfgD ⟨true, false⟩ [] [] [Except.ok [art501]] (some 500) 0 0
          (init_title_queue 50) (init_url_queue 50)).monitor.state.start_id) :=
  ⟨by decide,
    (c1_amended_checkpoint fz0 cfgD ⟨true, false⟩ [] [] [Except.ok [art501]] 0 0
      (init_title_queue 50) (init_url_queue 50)).1 501 (by decide),
    (c1_amended_checkpoint fz0 cfgD ⟨true, false⟩ [] [] [Except.ok [art501]] 0 0
      (init_title_queue 50) (init_url_queue 50)).2 rfl⟩

/-- C2 (code bug): the `headlines` local is initialised once, before the
poll loop, and is not reset when a fetch raises.  First cycle: the backend
returns unread article 10 (no duplicate, no action, the article is learned
into the queue).  Second cycle: the fetch raises — yet instead of an empty
cycle, the stale batch `[article 10]` is re-processed, the article now
matches its own learned record (jaccard 100 > 80 via the `combined`
method), and the live loop issues `mark_starred(10)` and `mark_read(10)`. -/
theorem c2_stale_headlines_on_fetch_error :
    (runOnce fz0 cfgD ⟨false, true⟩ [] [] [Except.ok [art10], Except.error ()] (some 5) 0 0
      (init_title_queue 50) (init_url_queue 50)).monitor.cycles
    = [([], 0), ([Action.markStarred 10, Action.markRead 10], 1)] := by
  decide

/-- The fold computing `maxStoreId` only grows its accumulator. -/
theorem foldl_max_init_le (l : List Article) :
    ∀ init : Nat, init ≤ l.foldl (fun m a => max m a.id) init := by
  induction l with
  | nil => intro init; exact le_refl _
  | cons x t ih =>
    intro init
    exact le_trans (le_max_left init x.id) (ih (max init x.id))

/-- Every article id in the store is bounded by `maxStoreId`. -/
theorem le_maxStoreId (store : List Article) :
    ∀ a ∈ store, a.id ≤ maxStoreId store := by
  unfold maxStoreId
  generalize (0 : Nat) = init
  induction store generalizing init with
  | nil => intro a ha; exact absurd ha (List.not_mem_nil a)
  | cons x t ih =>
    intro a ha
    rcases List.mem_cons.mp ha with rfl | ht
    · exact le_trans (le_max_right init a.id) (foldl_max_init_le t _)
    · exact ih (max init x.id) a ht

/-- Once the batch threshold has passed every article id, the per-feed
fetch is empty. -/
theorem fetch_feed_all_past_end (store : List Article) (fid : Nat) (since limit : Nat)
    (hs : maxStoreId store < since) : fetch_feed_all store fid since limit = [] := by
  unfold fetch_feed_all
  rw [List.filter_eq_nil_iff.mpr ?_]
  · exact List.take_nil
  · intro a ha hcond
    rcases Bool.and_eq_true_iff.mp hcond with ⟨_, hor⟩
    rcases Bool.or_eq_true_iff.mp hor with h0 | hlt
    · have h00 : since = 0 := eq_of_beq h0
      omega
    · have h1 := of_decide_eq_true hlt
      have h2 := le_maxStoreId store a ha
      omega

/-- Once the batch index has passed the store, the per-feed loop stops at
once regardless of remaining fuel. -/
theorem learnFeedF_past_end (store : List Article) (fid mc k : Nat)
    (hk : maxStoreId store < k * 200) :
    ∀ (fuel learned : Nat) (q : BQueue),
      learnFeedF store fid mc fuel k learned q = (q, learned) := by
  intro fuel learned q
  cases fuel with
  | zero => rfl
  | succ n =>
    show (if learned < mc then _ else (q, learned)) = (q, learned)
    by_cases hl : learned < mc
    · rw [if_pos hl]
      show (if fetch_feed_all store fid (k * 200) (min (mc - learned) 200) = [] then (q, learned)
        else _) = (q, learned)
      rw [if_pos (fetch_feed_all_past_end store fid (k * 200) _ hk)]
    · rw [if_neg hl]

/-- Fuel irrelevance for the per-feed loop: any two fuels large enough to
carry the batch index past the store compute the same result — i.e. the
loop terminates within `maxStoreId / 200 + 1 - k` further batches. -/
theorem learnFeedF_stable (store : List Article) (fid mc : Nat) :
    ∀ (f1 f2 k learned : Nat) (q : BQueue),
      maxStoreId store / 200 < f1 + k → maxStoreId store / 200 < f2 + k →
      learnFeedF store fid mc f1 k learned q = learnFeedF store fid mc f2 k learned q := by
  intro f1
  induction f1 with
  | zero =>
    intro f2 k learned q h1 _
    have hk : maxStoreId store < k * 200 := by
      have := (Nat.div_lt_iff_lt_mul (by norm_num : 0 < 200)).mp (by omega : maxStoreId store / 200 < k)
      omega
    exact (learnFeedF_past_end store fid mc k hk f2 learned q).symm
  | succ n ih =>
    intro f2 k learned q h1 h2
    by_cases hk : maxStoreId store / 200 < k
    · have hk200 : maxStoreId store < k * 200 := by
        have := (Nat.div_lt_iff_lt_mul (by norm_num : 0 < 200)).mp hk
        omega
      rw [learnFeedF_past_end store fid mc k hk200,
        learnFeedF_past_end store fid mc k hk200]
    · cases f2 with
      | zero => omega
      | succ m =>
        show (if learned < mc then _ else (q, learned))
            = (if learned < mc then _ else (q, learned))
        by_cases hl : learned < mc
        · rw [if_pos hl, if_pos hl]
          show (if fetch_feed_all store fid (k * 200) (min (mc - learned) 200) = []
              then (q, learned) else _)
            = (if fetch_feed_all store fid (k * 200) (min (mc - learned) 200) = []
              then (q, learned) else _)
          by_cases he : fetch_feed_all store fid (k * 200) (min (mc - learned) 200) = []
          · rw [if_pos he, if_pos he]
          · rw [if_neg he, if_neg he]
            exact ih m (k + 1) _ _ (by omega) (by omega)
        · rw [if_neg hl, if_neg hl]

/-- C8 counterexample: a feed whose history is exactly three read articles
with ids 300, 301, 302 (all above the batch size 200) is learned TWICE by
the warm-up with per-feed limit 10 — six records, each article appearing
two times — because `since_id = feed_batch * 200` is an article-id
threshold, not a page offset, and the second batch (`since_id = 200`)
returns the same three articles again. -/
theorem c8_counterexample :
    (learnFeed storeHigh 1 10 (init_title_queue 50)).2 ≠ 3 ∧
    (learnFeed storeHigh 1 10 (init_title_queue 50)).2 = 6 ∧
    (learnFeed storeHigh 1 10 (init_title_queue 50)).1.items
      = [⟨"x", "", 1⟩, ⟨"y", "", 1⟩, ⟨"z", "", 1⟩, ⟨"x", "", 1⟩, ⟨"y", "", 1⟩, ⟨"z", "", 1⟩] := by
  refine ⟨by decide, by decide, by decide⟩

/-- C8 (amended): warm-up with per-feed limit 10 against a feed whose
history is exactly three read articles whose ids do not exceed the batch
size 200 appends exactly three records (each article learned once) and the
per-feed loop terminates — any fuel beyond the bound computes the same
result; `learn_last_read` on that single feed performs exactly those three
appends and returns the URL queue untouched. -/
theorem c8_amended_three_learned (store : List Article) (f : Nat) (q : BQueue)
    (cfg : Config) (a1 a2 a3 : Article)
    (hfilter : store.filter (fun a => a.feed_id == f) = [a1, a2, a3])
    (hr1 : a1.unread = false) (hr2 : a2.unread = false) (hr3 : a3.unread = false)
    (hi1 : a1.id ≤ 200) (hi2 : a2.id ≤ 200) (hi3 : a3.id ≤ 200) :
    learnFeed store f 10 q
      = (q.appendList [learnRecord f a1, learnRecord f a2, learnRecord f a3], 3) ∧
    (∀ fuel : Nat, feedFuel store ≤ fuel →
      learnFeedF store f 10 fuel 0 0 q = learnFeed store f 10 q) ∧
    (cfg.maxcount = 10 → q.items = [] → ∀ (ft : String) (uq : BQueue),
      learn_last_read store [⟨f, ft⟩] cfg q uq true false
        = (q.appendList [learnRecord f a1, learnRecord f a2, learnRecord f a3], uq)) := by
  have hA : fetch_feed_all store f 0 10 = [a1, a2, a3] := by
    unfold fetch_feed_all
    have hc : (fun a => a.feed_id == f && ((0 : Nat) == 0 || decide (0 < a.id)))
        = (fun a : Article => a.feed_id == f) := by
      funext a
      simp
    rw [hc, hfilter]
    rfl
  have hB : ∀ limit, fetch_feed_all store f 200 limit = [] := by
    intro limit
    unfold fetch_feed_all
    rw [List.filter_eq_nil_iff.mpr ?_]
    · exact List.take_nil
    · intro a ha hcond
      rcases Bool.and_eq_true_iff.mp hcond with ⟨hf, hor⟩
      rcases Bool.or_eq_true_iff.mp hor with h0 | hlt
      · have h200 : (200 : Nat) = 0 := eq_of_beq h0
        omega
      · have hgt := of_decide_eq_true hlt
        have hafe : a ∈ store.filter (fun a => a.feed_id == f) :=
          List.mem_filter.mpr ⟨ha, hf⟩
        rw [hfilter] at hafe
        rcases List.mem_cons.mp hafe with rfl | hafe
        · omega
        rcases List.mem_cons.mp hafe with rfl | hafe
        · omega
        rcases List.mem_cons.mp hafe with rfl | hafe
        · omega
        · exact absurd hafe (List.not_mem_nil a)
  have hbatch : learnBatch f (q, 0) [a1, a2, a3]
      = (q.appendList [learnRecord f a1, learnRecord f a2, learnRecord f a3], 3) := by
    unfold learnBatch
    simp only [List.foldl_cons, List.foldl_nil, hr1, hr2, hr3, Bool.false_eq_true,
      if_false]
    rfl
  have hmain : ∀ fuel : Nat, 2 ≤ fuel →
      learnFeedF store f 10 fuel 0 0 q
        = (q.appendList [learnRecord f a1, learnRecord f a2, learnRecord f a3], 3) := by
    intro fuel hf
    obtain ⟨n, rfl⟩ : ∃ n, fuel = n + 2 := ⟨fuel - 2, by omega⟩
    show (if 0 < 10 then _ else _) = _
    rw [if_pos (by norm_num)]
    show (if fetch_feed_all store f (0 * 200) (min (10 - 0) 200) = [] then _ else _) = _
    have h10 : min (10 - 0) 200 = 10 := by norm_num
    rw [Nat.zero_mul, h10, hA]
    rw [if_neg (by simp)]
    show learnFeedF store f 10 (n + 1) 1
        (learnBatch f (q, 0) [a1, a2, a3]).2 (learnBatch f (q, 0) [a1, a2, a3]).1 = _
    rw [hbatch]
    show (if 3 < 10 then _ else _) = _
    rw [if_pos (by norm_num)]
    show (if fetch_feed_all store f (1 * 200) (min (10 - 3) 200) = [] then _ else _) = _
    rw [Nat.one_mul, hB]
    rw [if_pos rfl]
  have hfuel2 : 2 ≤ feedFuel store := by
    unfold feedFuel
    omega
  have hlearn : learnFeed store f 10 q
      = (q.appendList [learnRecord f a1, learnRecord f a2, learnRecord f a3], 3) :=
    hmain (feedFuel store) hfuel2
  refine ⟨hlearn, ?_, ?_⟩
  · intro fuel hf
    rw [hmain fuel (le_trans hfuel2 hf), hlearn]
  · intro hmc hq ft uq
    unfold learn_last_read
    rw [if_neg ?_]
    · have hforce : (false && !q.items.isEmpty) = false := by simp
      rw [hforce, if_neg (by simp)]
      show ((learnFeed store f cfg.maxcount q).1, uq) = _
      rw [hmc, hlearn]
    · rw [hq]
      simp

/-- Witness for C8 (amended) at the concrete store `storeLow` (feed 7,
read articles with ids 1, 2, 3): exactly three records learned. -/
theorem c8_amended_three_learned_witness :
    storeLow.filter (fun a => a.feed_id == 7)
      = [storeLow.get ⟨0, by decide⟩, storeLow.get ⟨1, by decide⟩, storeLow.get ⟨2, by decide⟩] ∧
    learnFeed storeLow 7 10 (init_title_queue 50)
      = ((init_title_queue 50).appendList
          [⟨"x", "", 7⟩, ⟨"y", "", 7⟩, ⟨"z", "", 7⟩], 3) := by
  constructor
  · decide
  · have h := (c8_amended_three_learned storeLow 7 (init_title_queue 50) cfgD
      (storeLow.get ⟨0, by decide⟩) (storeLow.get ⟨1, by decide⟩) (storeLow.get ⟨2, by decide⟩)
      (by decide) (by decide) (by decide) (by decide)
      (by decide) (by decide) (by decide)).1
    rw [h]
    decide

/-! ## Canonicalizer idempotence machinery (for C4)

The second application of `normalize_url` can only act through the
trailing-separator cleanup: the first application's output contains no `#`
(everything from the first `#` was dropped and nothing re-introduces one)
and no residue of any `[?&]p=` pattern (each `re.sub` pass removes all its
occurrences and later passes cannot create new ones, because every deletion
junction starts with `&` or ends the string).  The lemmas below prove
those invariants for the scanner embedding. -/

/-- Unfolding equation of the scanner at a cons cell. -/
theorem removeParamF_succ (p : List Char) (c : Char) (rest : List Char) (n : Nat) :
    removeParamF (n + 1) p (c :: rest)
      = if (isSep c && (p ++ ['=']).isPrefixOf rest) = true
        then removeParamF n p ((rest.drop (p.length + 1)).dropWhile (fun d => d ≠ '&'))
        else c :: removeParamF n p rest := rfl

/-- Unfolding equation of `hasMatch` at a cons cell. -/
theorem hasMatch_cons (p : List Char) (c : Char) (rest : List Char) :
    hasMatch p (c :: rest)
      = ((isSep c && (p ++ ['=']).isPrefixOf rest) || hasMatch p rest) := rfl

/-- The scanner only deletes characters. -/
theorem removeParamF_mem (p : List Char) :
    ∀ (fuel : Nat) (s : List Char) (a : Char), a ∈ removeParamF fuel p s → a ∈ s := by
  intro fuel
  induction fuel with
  | zero => intro s a ha; exact ha
  | succ n ih =>
    intro s a ha
    cases s with
    | nil => exact ha
    | cons c rest =>
      rw [removeParamF_succ] at ha
      by_cases hc : (isSep c && (p ++ ['=']).isPrefixOf rest) = true
      · rw [if_pos hc] at ha
        have h1 := ih _ a ha
        have h2 := ((rest.drop (p.length + 1)).dropWhile_sublist (fun d => d ≠ '&')).mem h1
        exact List.mem_cons_of_mem c (List.mem_of_mem_drop h2)
      · rw [if_neg hc] at ha
        rcases List.mem_cons.mp ha with rfl | ha
        · exact List.mem_cons_self a rest
        · exact List.mem_cons_of_mem c (ih rest a ha)

/-- A match-free string has match-free suffixes. -/
theorem hasMatch_suffix (q : List Char) :
    ∀ (t t' : List Char), t' <:+ t → hasMatch q t = false → hasMatch q t' = false := by
  intro t
  induction t with
  | nil =>
    intro t' h _
    rw [List.suffix_nil.mp h]
    rfl
  | cons c rest ih =>
    intro t' h hm
    rw [show hasMatch q (c :: rest)
        = ((isSep c && (q ++ ['=']).isPrefixOf rest) || hasMatch q rest) from rfl] at hm
    rcases Bool.or_eq_false_iff.mp hm with ⟨h1, h2⟩
    rcases List.suffix_cons_iff.mp h with rfl | h'
    · rw [show hasMatch q (c :: rest)
          = ((isSep c && (q ++ ['=']).isPrefixOf rest) || hasMatch q rest) from rfl]
      rw [h1, h2]
      rfl
    · exact ih t' h' h2

/-- A match-free string has match-free prefixes. -/
theorem hasMatch_prefix (q : List Char) :
    ∀ (t t' : List Char), t' <+: t → hasMatch q t = false → hasMatch q t' = false := by
  intro t
  induction t with
  | nil =>
    intro t' h _
    rw [List.prefix_nil.mp h]
    rfl
  | cons c rest ih =>
    intro t' h hm
    cases t' with
    | nil => rfl
    | cons a r' =>
      obtain ⟨rfl, hr⟩ := List.cons_prefix_cons.mp h
      rw [show hasMatch q (a :: rest)
          = ((isSep a && (q ++ ['=']).isPrefixOf rest) || hasMatch q rest) from rfl] at hm
      rcases Bool.or_eq_false_iff.mp hm with ⟨h1, h2⟩
      rw [show hasMatch q (a :: r')
          = ((isSep a && (q ++ ['=']).isPrefixOf r') || hasMatch q r') from rfl]
      rw [ih r' hr h2, Bool.or_false]
      by_cases hsep : isSep a = true
      · rw [hsep] at h1 ⊢
        rw [Bool.true_and] at h1 ⊢
        rw [Bool.eq_false_iff] at h1 ⊢
        intro hpre
        exact h1 (List.isPrefixOf_iff_prefix.mpr
          ((List.isPrefixOf_iff_prefix.mp hpre).trans hr))
      · rw [Bool.eq_false_iff.mpr hsep, Bool.false_and]

/-- Appending one character that can appear nowhere in the pattern
`[?&]q=` preserves match-freeness. -/
theorem hasMatch_append_single (q : List Char) (ch : Char)
    (hq : ch ∉ q) (heq : ch ≠ '=') :
    ∀ l : List Char, hasMatch q l = false → hasMatch q (l ++ [ch]) = false := by
  intro l
  induction l with
  | nil =>
    intro _
    show ((isSep ch && (q ++ ['=']).isPrefixOf []) || hasMatch q []) = false
    have : (q ++ ['=']).isPrefixOf ([] : List Char) = false := by
      rw [Bool.eq_false_iff]
      intro hpre
      have := List.prefix_nil.mp (List.isPrefixOf_iff_prefix.mp hpre)
      simp at this
    rw [this, Bool.and_false, Bool.false_or]
    rfl
  | cons a rest ih =>
    intro hm
    rw [show hasMatch q (a :: rest)
        = ((isSep a && (q ++ ['=']).isPrefixOf rest) || hasMatch q rest) from rfl] at hm
    rcases Bool.or_eq_false_iff.mp hm with ⟨h1, h2⟩
    show ((isSep a && (q ++ ['=']).isPrefixOf (rest ++ [ch])) || hasMatch q (rest ++ [ch]))
        = false
    rw [ih h2, Bool.or_false]
    by_cases hsepa : isSep a = true
    · rw [hsepa, Bool.true_and] at h1 ⊢
      rw [Bool.eq_false_iff] at h1 ⊢
      intro hpre
      rcases List.prefix_concat_iff.mp (List.isPrefixOf_iff_prefix.mp hpre) with hp | hp
      · have hch : ch ∈ q ++ ['='] := by
          rw [hp]
          exact List.mem_append_right rest (List.mem_singleton.mpr rfl)
        rcases List.mem_append.mp hch with hin | hin
        · exact hq hin
        · exact heq (List.mem_singleton.mp hin)
      · exact h1 (List.isPrefixOf_iff_prefix.mpr hp)
    · rw [Bool.eq_false_iff.mpr hsepa, Bool.false_and]

/-- On a match-free string every scanner pass is the identity. -/
theorem removeParamF_id (p : List Char) :
    ∀ (s : List Char) (fuel : Nat), hasMatch p s = false → removeParamF fuel p s = s := by
  intro s
  induction s with
  | nil => intro fuel _; cases fuel <;> rfl
  | cons c rest ih =>
    intro fuel hm
    cases fuel with
    | zero => rfl
    | succ n =>
      rw [hasMatch_cons] at hm
      rcases Bool.or_eq_false_iff.mp hm with ⟨h1, h2⟩
      rw [removeParamF_succ, if_neg (by rw [h1]; exact Bool.false_ne_true), ih n h2]

/-- `dropWhile (· ≠ '&')` yields nothing or a list starting with `&`. -/
theorem dropWhile_amp (l : List Char) :
    l.dropWhile (fun d => d ≠ '&') = []
      ∨ ∃ t, l.dropWhile (fun d => d ≠ '&') = '&' :: t := by
  induction l with
  | nil => exact Or.inl rfl
  | cons c rest ih =>
    by_cases hc : c = '&'
    · subst hc
      right
      exact ⟨rest, by simp [List.dropWhile]⟩
    · rw [show (c :: rest).dropWhile (fun d => d ≠ '&')
          = rest.dropWhile (fun d => d ≠ '&') from by
        simp [List.dropWhile, hc]]
      exact ih

/-- Whatever the scanner's output starts with, the input started with it
too, provided that leading word contains no separator: kept characters are
copied in order, and every deletion junction resumes at `&` or the end. -/
theorem removeParamF_prefix_sepfree (p : List Char) :
    ∀ (fuel : Nat) (s w : List Char), w ≠ [] → (∀ c ∈ w, isSep c = false) →
      w <+: removeParamF fuel p s → w <+: s := by
  intro fuel
  induction fuel with
  | zero => intro s w _ _ h; exact h
  | succ n ih =>
    intro s w hw hsep h
    cases s with
    | nil => exact h
    | cons c rest =>
      rw [removeParamF_succ] at h
      by_cases hc : (isSep c && (p ++ ['=']).isPrefixOf rest) = true
      · rw [if_pos hc] at h
        have hrest' := ih _ w hw hsep h
        rcases dropWhile_amp (rest.drop (p.length + 1)) with hnil | ⟨t, hamp⟩
        · rw [hnil] at hrest'
          exact absurd (List.prefix_nil.mp hrest') hw
        · rw [hamp] at hrest'
          cases w with
          | nil => exact absurd rfl hw
          | cons w0 w' =>
            obtain ⟨rfl, _⟩ := List.cons_prefix_cons.mp hrest'
            have := hsep '&' (List.mem_cons_self '&' w')
            rw [show isSep '&' = true from rfl] at this
            exact absurd this (by decide)
      · rw [if_neg hc] at h
        cases w with
        | nil => exact absurd rfl hw
        | cons w0 w' =>
          obtain ⟨rfl, hw'⟩ := List.cons_prefix_cons.mp h
          by_cases hw'nil : w' = []
          · subst hw'nil
            exact List.cons_prefix_cons.mpr ⟨rfl, List.nil_prefix⟩
          · have hw'sep : ∀ c ∈ w', isSep c = false :=
              fun c hcm => hsep c (List.mem_cons_of_mem w0 hcm)
            exact List.cons_prefix_cons.mpr ⟨rfl, ih rest w' hw'nil hw'sep hw'⟩

/-- After a full scanner pass with sufficient fuel, no occurrence of the
pass's own pattern survives. -/
theorem removeParamF_no_self_match (p : List Char) (hp : p ≠ [])
    (hpsep : ∀ c ∈ p, isSep c = false) :
    ∀ (fuel : Nat) (s : List Char), s.length ≤ fuel →
      hasMatch p (removeParamF fuel p s) = false := by
  have hwne : p ++ ['='] ≠ [] := by simp
  have hwsep : ∀ c ∈ p ++ ['='], isSep c = false := by
    intro c hcm
    rcases List.mem_append.mp hcm with hin | hin
    · exact hpsep c hin
    · rw [List.mem_singleton.mp hin]
      rfl
  intro fuel
  induction fuel with
  | zero =>
    intro s hs
    rw [Nat.le_zero] at hs
    rw [List.length_eq_zero.mp hs]
    rfl
  | succ n ih =>
    intro s hs
    cases s with
    | nil => rfl
    | cons c rest =>
      rw [List.length_cons] at hs
      rw [removeParamF_succ]
      by_cases hc : (isSep c && (p ++ ['=']).isPrefixOf rest) = true
      · rw [if_pos hc]
        refine ih _ (le_trans ?_ (by omega : rest.length ≤ n))
        exact le_trans
          ((rest.drop (p.length + 1)).dropWhile_sublist (fun d => d ≠ '&')).length_le
          ((rest.drop_sublist (p.length + 1)).length_le)
      · rw [if_neg hc]
        rw [hasMatch_cons]
        rw [ih rest (by omega), Bool.or_false]
        by_cases hcs : isSep c = true
        · rw [hcs, Bool.true_and]
          rw [Bool.eq_false_iff]
          intro hpre
          apply hc
          rw [hcs, Bool.true_and]
          exact List.isPrefixOf_iff_prefix.mpr
            (removeParamF_prefix_sepfree p n rest (p ++ ['=']) hwne hwsep
              (List.isPrefixOf_iff_prefix.mp hpre))
        · rw [Bool.eq_false_iff.mpr hcs, Bool.false_and]

/-- A scanner pass for one parameter cannot create an occurrence of any
other separator-free parameter pattern. -/
theorem removeParamF_no_other_match (p q : List Char) (hq : q ≠ [])
    (hqsep : ∀ c ∈ q, isSep c = false) :
    ∀ (fuel : Nat) (s : List Char), hasMatch q s = false →
      hasMatch q (removeParamF fuel p s) = false := by
  have hwne : q ++ ['='] ≠ [] := by simp
  have hwsep : ∀ c ∈ q ++ ['='], isSep c = false := by
    intro c hcm
    rcases List.mem_append.mp hcm with hin | hin
    · exact hqsep c hin
    · rw [List.mem_singleton.mp hin]
      rfl
  intro fuel
  induction fuel with
  | zero => intro s hm; exact hm
  | succ n ih =>
    intro s hm
    cases s with
    | nil => rfl
    | cons c rest =>
      rw [hasMatch_cons] at hm
      rcases Bool.or_eq_false_iff.mp hm with ⟨h1, h2⟩
      rw [removeParamF_succ]
      by_cases hc : (isSep c && (p ++ ['=']).isPrefixOf rest) = true
      · rw [if_pos hc]
        refine ih _ (hasMatch_suffix q rest _ ?_ h2)
        exact ((rest.drop (p.length + 1)).dropWhile_suffix (fun d => d ≠ '&')).trans
          (rest.drop_suffix (p.length + 1))
      · rw [if_neg hc]
        rw [hasMatch_cons]
        rw [ih rest h2, Bool.or_false]
        by_cases hcs : isSep c = true
        · rw [hcs, Bool.true_and]
          rw [Bool.eq_false_iff]
          intro hpre
          have hq' : (q ++ ['=']) <+: rest :=
            removeParamF_prefix_sepfree p n rest (q ++ ['=']) hwne hwsep
              (List.isPrefixOf_iff_prefix.mp hpre)
          rw [hcs, Bool.true_and] at h1
          rw [Bool.eq_false_iff] at h1
          exact h1 (List.isPrefixOf_iff_prefix.mpr hq')
        · rw [Bool.eq_false_iff.mpr hcs, Bool.false_and]

/-- The ten-pass fold only deletes characters. -/
theorem foldl_removeParam_mem :
    ∀ (L : List (List Char)) (s : List Char) (a : Char),
      a ∈ L.foldl (fun acc p => removeParamL p acc) s → a ∈ s := by
  intro L
  induction L with
  | nil => intro s a ha; exact ha
  | cons p L' ih =>
    intro s a ha
    rw [List.foldl_cons] at ha
    exact removeParamF_mem p s.length s a (ih _ a ha)

/-- Later passes preserve match-freeness of a separator-free pattern. -/
theorem foldl_removeParam_pres (q : List Char) (hq : q ≠ [])
    (hqsep : ∀ c ∈ q, isSep c = false) :
    ∀ (L : List (List Char)) (s : List Char), hasMatch q s = false →
      hasMatch q (L.foldl (fun acc p => removeParamL p acc) s) = false := by
  intro L
  induction L with
  | nil => intro s hm; exact hm
  | cons p L' ih =>
    intro s hm
    rw [List.foldl_cons]
    exact ih _ (removeParamF_no_other_match p q hq hqsep s.length s hm)

/-- The deny-listed parameter names are non-empty and contain neither
separators nor newlines. -/
theorem tracking_ok :
    ∀ p ∈ tracking_params, p ≠ [] ∧ '\n' ∉ p ∧ ∀ c ∈ p, isSep c = false := by
  decide

/-- After the ten passes, no `[?&]p=` occurrence survives for any
deny-listed parameter `p`. -/
theorem removeParamsL_no_match (s : List Char) :
    ∀ p ∈ tracking_params, hasMatch p (removeParamsL s) = false := by
  have hgen : ∀ (L : List (List Char)),
      (∀ p ∈ L, p ≠ [] ∧ '\n' ∉ p ∧ ∀ c ∈ p, isSep c = false) →
      ∀ (s p : List Char), p ∈ L →
        hasMatch p (L.foldl (fun acc p => removeParamL p acc) s) = false := by
    intro L
    induction L with
    | nil => intro _ s p hp; exact absurd hp (List.not_mem_nil p)
    | cons p0 L' ih =>
      intro hok s p hp
      rw [List.foldl_cons]
      rcases List.mem_cons.mp hp with rfl | hp'
      · have h0 := hok p (List.mem_cons_self p L')
        have hm0 : hasMatch p (removeParamL p s) = false :=
          removeParamF_no_self_match p h0.1 h0.2.2 s.length s (le_refl _)
        exact foldl_removeParam_pres p h0.1 h0.2.2 L' _ hm0
      · exact ih (fun p hp => hok p (List.mem_cons_of_mem p0 hp)) _ p hp'
  intro p hp
  exact hgen tracking_params tracking_ok s p hp

/-- On a string free of every deny-listed pattern, the ten passes are the
identity. -/
theorem removeParamsL_id (s : List Char)
    (h : ∀ p ∈ tracking_params, hasMatch p s = false) : removeParamsL s = s := by
  have hgen : ∀ (L : List (List Char)) (s : List Char),
      (∀ p ∈ L, hasMatch p s = false) →
      L.foldl (fun acc p => removeParamL p acc) s = s := by
    intro L
    induction L with
    | nil => intro s _; rfl
    | cons p0 L' ih =>
      intro s hs
      rw [List.foldl_cons]
      have hid : removeParamL p0 s = s :=
        removeParamF_id p0 s s.length (hs p0 (List.mem_cons_self p0 L'))
      rw [hid]
      exact ih s (fun p hp => hs p (List.mem_cons_of_mem p0 hp))
  exact hgen tracking_params s h

/-- Unfolding equation for the trailing cleanup when the string is empty. -/
theorem stripTrailingL_eq_nil (s : List Char) (h : s.reverse = []) :
    stripTrailingL s = [] := by
  unfold stripTrailingL
  rw [h]

/-- Trailing cleanup when the last character is a separator. -/
theorem stripTrailingL_sep (s : List Char) (c : Char) (t : List Char)
    (h : s.reverse = c :: t) (hc : isSep c = true) : stripTrailingL s = t.reverse := by
  unfold stripTrailingL
  simp only [h]
  rw [if_pos hc]

/-- Trailing cleanup when the last character is neither a separator nor a
newline. -/
theorem stripTrailingL_keep (s : List Char) (c : Char) (t : List Char)
    (h : s.reverse = c :: t) (hc : isSep c = false) (hn : c ≠ '\n') :
    stripTrailingL s = s := by
  unfold stripTrailingL
  simp only [h]
  rw [if_neg (by simp [hc]), if_neg hn]

/-- Trailing cleanup on a one-character string ending in a newline. -/
theorem stripTrailingL_nl_nil (s : List Char) (c : Char)
    (h : s.reverse = [c]) (hn : c = '\n') (hc : isSep c = false) :
    stripTrailingL s = s := by
  unfold stripTrailingL
  simp only [h]
  rw [if_neg (by simp [hc]), if_pos hn]

/-- Trailing cleanup when the string ends in a newline preceded by more. -/
theorem stripTrailingL_nl_cons (s : List Char) (c c2 : Char) (t2 : List Char)
    (h : s.reverse = c :: c2 :: t2) (hn : c = '\n') (hc : isSep c = false) :
    stripTrailingL s = if isSep c2 then t2.reverse ++ ['\n'] else s := by
  unfold stripTrailingL
  simp only [h]
  rw [if_neg (by simp [hc]), if_pos hn]

/-- The trailing cleanup only deletes characters. -/
theorem stripTrailingL_mem (s : List Char) (a : Char)
    (ha : a ∈ stripTrailingL s) : a ∈ s := by
  rcases hrev : s.reverse with _ | ⟨c, t⟩
  · rw [stripTrailingL_eq_nil s hrev] at ha
    exact absurd ha (List.not_mem_nil a)
  · have hs : s = t.reverse ++ [c] := by
      have h2 := congrArg List.reverse hrev
      rw [List.reverse_reverse] at h2
      rw [h2, List.reverse_cons]
    by_cases h1 : isSep c = true
    · rw [stripTrailingL_sep s c t hrev h1] at ha
      rw [hs]
      exact List.mem_append_left _ ha
    · have h1f : isSep c = false := Bool.eq_false_iff.mpr h1
      by_cases h2 : c = '\n'
      · cases t with
        | nil =>
          rw [stripTrailingL_nl_nil s c hrev h2 h1f] at ha
          exact ha
        | cons c2 t2 =>
          rw [stripTrailingL_nl_cons s c c2 t2 hrev h2 h1f] at ha
          by_cases h3 : isSep c2 = true
          · rw [if_pos h3] at ha
            have hs2 : s = (t2.reverse ++ [c2]) ++ [c] := by
              rw [hs, List.reverse_cons]
            rcases List.mem_append.mp ha with hin | hin
            · rw [hs2]
              exact List.mem_append_left _ (List.mem_append_left _ hin)
            · rw [List.mem_singleton.mp hin, hs2, ← h2]
              exact List.mem_append_right _ (List.mem_singleton.mpr rfl)
          · rw [if_neg h3] at ha
            exact ha
      · rw [stripTrailingL_keep s c t hrev h1f h2] at ha
        exact ha

/-- The trailing cleanup preserves match-freeness of any pattern without a
newline. -/
theorem stripTrailingL_no_match (q : List Char) (hqn : '\n' ∉ q) (s : List Char)
    (hm : hasMatch q s = false) : hasMatch q (stripTrailingL s) = false := by
  rcases hrev : s.reverse with _ | ⟨c, t⟩
  · rw [stripTrailingL_eq_nil s hrev]
    rfl
  · have hs : s = t.reverse ++ [c] := by
      have h2 := congrArg List.reverse hrev
      rw [List.reverse_reverse] at h2
      rw [h2, List.reverse_cons]
    by_cases h1 : isSep c = true
    · rw [stripTrailingL_sep s c t hrev h1]
      refine hasMatch_prefix q s _ ?_ hm
      rw [hs]
      exact List.prefix_append t.reverse [c]
    · have h1f : isSep c = false := Bool.eq_false_iff.mpr h1
      by_cases h2 : c = '\n'
      · cases t with
        | nil =>
          rw [stripTrailingL_nl_nil s c hrev h2 h1f]
          exact hm
        | cons c2 t2 =>
          rw [stripTrailingL_nl_cons s c c2 t2 hrev h2 h1f]
          by_cases h3 : isSep c2 = true
          · rw [if_pos h3]
            have hpre : hasMatch q t2.reverse = false := by
              refine hasMatch_prefix q s _ ?_ hm
              rw [hs, List.reverse_cons, List.append_assoc]
              exact List.prefix_append t2.reverse ([c2] ++ [c])
            exact hasMatch_append_single q '\n' hqn (by decide) t2.reverse hpre
          · rw [if_neg h3]
            exact hm
      · rw [stripTrailingL_keep s c t hrev h1f h2]
        exact hm

/-- C4 counterexample: canonicalization is not idempotent — on
`"https://x/a??"` the cleanup removes only one trailing separator, so a
second application removes another. -/
theorem c4_counterexample :
    normalize_url (normalize_url "https://x/a??") ≠ normalize_url "https://x/a??" := by
  decide

/-- C4 (amended): canonicalization is idempotent for every input whose
canonical form is unchanged by the trailing-separator cleanup — i.e. does
not end in `?` or `&` (possibly before a final newline).  In a second
application the fragment split and all ten parameter passes are the
identity; only the trailing cleanup can act, and the hypothesis rules that
out. -/
theorem c4_amended_idempotent (u : String)
    (h : stripTrailingL (normalize_url u).data = (normalize_url u).data) :
    normalize_url (normalize_url u) = normalize_url u := by
  have mk_data : ∀ l : List Char, (String.mk l).data = l := fun l => rfl
  have hvdef : (normalize_url u).data = normalizeL u.data := by
    unfold normalize_url
    rw [mk_data]
  have hhash : ∀ a ∈ normalizeL u.data, a ≠ '#' := by
    intro a ha
    have h1 := stripTrailingL_mem _ a ha
    have h2 := foldl_removeParam_mem tracking_params _ a h1
    have h3 := List.mem_takeWhile_imp h2
    exact of_decide_eq_true h3
  have hmatchfree : ∀ p ∈ tracking_params, hasMatch p (normalizeL u.data) = false := by
    intro p hp
    exact stripTrailingL_no_match p (tracking_ok p hp).2.1 _
      (removeParamsL_no_match _ p hp)
  have hsplit : splitHashL (normalizeL u.data) = normalizeL u.data :=
    List.takeWhile_eq_self_iff.mpr (fun x hx => decide_eq_true (hhash x hx))
  have hparams : removeParamsL (normalizeL u.data) = normalizeL u.data :=
    removeParamsL_id _ hmatchfree
  rw [hvdef] at h
  unfold normalize_url
  rw [mk_data]
  have hstep : normalizeL (normalizeL u.data)
      = stripTrailingL (removeParamsL (splitHashL (normalizeL u.data))) := rfl
  rw [hstep, hsplit, hparams, h]

set_option maxHeartbeats 1000000 in
/-- Witness for C4 (amended) at `"https://x/a?utm_source=y"`, whose
canonical form `"https://x/a"` has no trailing separator. -/
theorem c4_amended_idempotent_witness :
    stripTrailingL (normalize_url "https://x/a?utm_source=y").data
        = (normalize_url "https://x/a?utm_source=y").data ∧
    normalize_url (normalize_url "https://x/a?utm_source=y")
        = normalize_url "https://x/a?utm_source=y" :=
  ⟨by decide, c4_amended_idempotent "https://x/a?utm_source=y" (by decide)⟩

end NewsDedup
